import Mathlib

/-!
Verification development for the DynaPhoPy core, a shallow embedding of
`dynaphopy/classes/dynamics.py` and `dynaphopy/power_spectrum.py`.

Modelling conventions:
* machine floats are modelled as real numbers (`ℝ`), exact inputs such as cell
  matrices and time stamps as rationals (`ℚ`), numpy integer values as `ℤ`/`ℕ`;
* numpy arrays are lists (time-major for trajectory-like `[time, atom, axis]`
  arrays, whose innermost axis is a `Fin 3 → ℂ` vector);
* process termination (`exit()` as well as an uncaught exception such as an
  `IndexError`) is the `none` case of an `Option` result;
* mutation of a `Dynamics` instance is explicit state passing: a method that
  can mutate its object returns the new object next to its value;
* external collaborators that are not part of the two embedded source files
  (the `mem` solver, the correlation kernel, scipy's `curve_fit`, the fitting
  helpers, the lattice-drift removal function `relativize_trajectory` and
  `np.gradient`) are opaque parameters, exactly as the specification's §6
  declares them contract-only collaborators.
-/

namespace DynaPhoPy

/-- Python slice `l[-k:]` for a nonnegative integer `k`.  Note the Python
quirk that `l[-0:]` is all of `l`, not the empty list. -/
def lastSlice (k : ℤ) (l : List α) : List α :=
  if k = 0 then l else l.drop (l.length - k.toNat)

/-- `np.around` on a real scalar, rounding half to even, followed by
`astype("int")` (exact on integral values). -/
noncomputable def npAround (x : ℝ) : ℤ :=
  if Int.fract x = 1 / 2 then (if ⌊x⌋ % 2 = 0 then ⌊x⌋ else ⌊x⌋ + 1) else round x

/-- The helper `parameters(h)` of `Dynamics.get_super_cell_matrix`:
`np.linalg.norm` of column `j` of a 3×3 cell matrix (first index is the row). -/
noncomputable def cellParameters (h : Fin 3 → Fin 3 → ℚ) (j : Fin 3) : ℝ :=
  Real.sqrt (((h 0 j : ℝ)) ^ 2 + ((h 1 j : ℝ)) ^ 2 + ((h 2 j : ℝ)) ^ 2)

/-- `super_cell_matrix_real`: element-wise ratio of the simulation-cell
lattice-vector norms to the reference-cell lattice-vector norms. -/
noncomputable def superCellRatio (simCell refCell : Fin 3 → Fin 3 → ℚ) (j : Fin 3) : ℝ :=
  cellParameters simCell j / cellParameters refCell j

/-- `np.around(super_cell_matrix_real).astype("int")`. -/
noncomputable def superCellRounded (simCell refCell : Fin 3 → Fin 3 → ℚ) (j : Fin 3) : ℤ :=
  npAround (superCellRatio simCell refCell j)

/-- The deviation measure tested against the tolerance in
`Dynamics.get_super_cell_matrix`:
`abs(sum(rounded - real) / np.linalg.norm(real))`. -/
noncomputable def superCellDeviation (simCell refCell : Fin 3 → Fin 3 → ℚ) : ℝ :=
  |(∑ j : Fin 3, ((superCellRounded simCell refCell j : ℝ) - superCellRatio simCell refCell j)) /
    Real.sqrt (∑ j : Fin 3, superCellRatio simCell refCell j ^ 2)|

/-- The reference unit cell.  The structure loader lives outside the two
embedded source files (spec §6), so its accessors are opaque record fields:
`get_cell()`, `get_number_of_atoms()`, supercell-aware `get_masses(...)[i]`
and `get_number_of_dimensions()`. -/
structure Structure where
  cell : Fin 3 → Fin 3 → ℚ
  number_of_atoms : ℕ
  masses : (Fin 3 → ℤ) → ℕ → ℝ
  number_of_dimensions : ℕ

/-- The state of a `Dynamics` instance: the loaded series, the simulation
cell, the reference structure and one cache slot per lazily derived
attribute, mirroring the `self._...` attributes of the Python class.  The
claims under study all presuppose a loaded simulation cell and reference
structure, so those two fields are not optional. -/
structure Dynamics where
  _time : Option (List ℚ)
  _trajectory : Option (List (List (Fin 3 → ℂ)))
  _energy : Option (List ℚ)
  _velocity : Option (List (List (Fin 3 → ℂ)))
  _super_cell : Fin 3 → Fin 3 → ℚ
  _structure : Structure
  _time_step_average : Option ℚ
  _velocity_mass_average : Option (List (List (Fin 3 → ℂ)))
  _relative_trajectory : Option (List (List (Fin 3 → ℂ)))
  _super_cell_matrix : Option (Fin 3 → ℤ)
  _number_of_atoms : Option ℤ
  _mean_displacement_matrix : Option (ℕ → Fin 3 → Fin 3 → ℝ)

/-- External collaborators used by the `Dynamics` methods (spec §6):
the lattice-drift removal function `relativize_trajectory` (which may itself
abort the process, hence `Option`) and numpy's `np.gradient` on one 1-D
column with a scalar spacing. -/
structure Externals where
  relativize : Dynamics → Option (List (List (Fin 3 → ℂ)))
  np_gradient : List ℂ → ℚ → List ℂ

/-- The loop of `Dynamics.get_time_step_average`: the sum over consecutive
differences of the time series, each divided by `len(time) - 1`. -/
def timeStepAvgCalc (t : List ℚ) : ℚ :=
  ∑ i in Finset.range (t.length - 1), (t.getD (i + 1) 0 - t.getD i 0) / ((t.length : ℚ) - 1)

/-- The recomputation branch of `Dynamics.get_time_step_average`; `none`
models the `TypeError` crash of `len(None)` when no time series is loaded. -/
def timeStepCompute (d : Dynamics) : Option (ℚ × Dynamics) :=
  match d._time with
  | none => none
  | some t => some (timeStepAvgCalc t, { d with _time_step_average := some (timeStepAvgCalc t) })

/-- `Dynamics.get_time_step_average`.  The Python guard is
`if not self._time_step_average`, so both a missing cache and a cached value
of `0` trigger recomputation. -/
def Dynamics.get_time_step_average (d : Dynamics) : Option (ℚ × Dynamics) :=
  match d._time_step_average with
  | none => timeStepCompute d
  | some v => if v = 0 then timeStepCompute d else some (v, d)

/-- `Dynamics.get_super_cell_matrix(tolerance)`.  `none` models the
`exit()` taken when the deviation measure exceeds the tolerance; on success
the rounded vector is returned and stored in the cache slot.  A cached value
is returned unchecked. -/
noncomputable def Dynamics.get_super_cell_matrix (d : Dynamics) (tolerance : ℝ) :
    Option ((Fin 3 → ℤ) × Dynamics) :=
  match d._super_cell_matrix with
  | some m => some (m, d)
  | none =>
      if superCellDeviation d._super_cell d._structure.cell > tolerance then none
      else
        some (superCellRounded d._super_cell d._structure.cell,
          { d with _super_cell_matrix := some (superCellRounded d._super_cell d._structure.cell) })

/-- `Dynamics.get_number_of_atoms`: primitive atom count times
`np.product` of the supercell matrix, cached; calls
`get_super_cell_matrix()` with its default tolerance `0.01`. -/
noncomputable def Dynamics.get_number_of_atoms (d : Dynamics) : Option (ℤ × Dynamics) :=
  match d._number_of_atoms with
  | some n => some (n, d)
  | none =>
      (d.get_super_cell_matrix (1 / 100)).map (fun p =>
        ((d._structure.number_of_atoms : ℤ) * (p.1 0 * p.1 1 * p.1 2),
         { p.2 with
            _number_of_atoms := some ((d._structure.number_of_atoms : ℤ) * (p.1 0 * p.1 1 * p.1 2)) }))

/-- `Dynamics.get_relative_trajectory`: delegates to the external
lattice-drift removal collaborator and caches its result. -/
def Dynamics.get_relative_trajectory (ext : Externals) (d : Dynamics) :
    Option (List (List (Fin 3 → ℂ)) × Dynamics) :=
  match d._relative_trajectory with
  | some rt => some (rt, d)
  | none =>
      (ext.relativize d).map (fun rt => (rt, { d with _relative_trajectory := some rt }))

/-- The buffer built by the derivation branch of the `Dynamics.velocity`
property: a complex zero array shaped like the relative trajectory whose
columns `[:, i, j]` with `i` below the atom count and `j` below the spatial
dimension count hold `np.gradient` of the corresponding relative-trajectory
column over the average time step. -/
def derivedVelocity (grad : List ℂ → ℚ → List ℂ) (rt : List (List (Fin 3 → ℂ)))
    (n : ℤ) (dims : ℕ) (dt : ℚ) : List (List (Fin 3 → ℂ)) :=
  (List.range rt.length).map (fun t =>
    (List.range ((rt.getD t []).length)).map (fun (i : ℕ) => fun ax =>
      if (i : ℤ) < n ∧ (ax : ℕ) < dims then
        (grad (rt.map (fun frame => frame.getD i (fun _ => 0) ax)) dt).getD t 0
      else 0))

/-- The `Dynamics.velocity` property: the stored velocity if one was
supplied, otherwise the velocity derived by per-atom, per-axis numerical
gradient of the relative trajectory, with `none` for any abort along the
derivation chain. -/
noncomputable def Dynamics.velocity (ext : Externals) (d : Dynamics) :
    Option (List (List (Fin 3 → ℂ)) × Dynamics) :=
  match d._velocity with
  | some v => some (v, d)
  | none =>
      (d.get_relative_trajectory ext).bind (fun rtp =>
        (rtp.2.get_number_of_atoms).bind (fun np =>
          (np.2.get_time_step_average).map (fun dtp =>
            let v := derivedVelocity ext.np_gradient rtp.1 np.1
              dtp.2._structure.number_of_dimensions dtp.1
            (v, { dtp.2 with _velocity := some v }))))

/-- `Dynamics.crop_trajectory(last_steps)`.  `none` or a negative count is a
no-op; otherwise every present series is sliced to `[-last_steps:]` (for the
velocity this goes through the `velocity` property, which may derive it or
abort), and the mass-weighted-velocity and relative-trajectory caches are
reset.  The length warnings are bare prints and have no further effect. -/
noncomputable def Dynamics.crop_trajectory (ext : Externals) (d : Dynamics)
    (last_steps : Option ℤ) : Option Dynamics :=
  match last_steps with
  | none => some d
  | some k =>
      if k < 0 then some d
      else
        let d1 := match d._trajectory with
          | none => d
          | some tr => { d with _trajectory := some (lastSlice k tr) }
        let d2 := match d1._energy with
          | none => d1
          | some e => { d1 with _energy := some (lastSlice k e) }
        let d3 := match d2._time with
          | none => d2
          | some t => { d2 with _time := some (lastSlice k t) }
        (d3.velocity ext).map (fun vp =>
          { vp.2 with
              _velocity := some (lastSlice k vp.1)
              _velocity_mass_average := none
              _relative_trajectory := none })

/-- The computation loop of `Dynamics.get_velocity_mass_average`: atom `i`'s
velocity column multiplied by the square root of atom `i`'s supercell-aware
mass, for every atom index below the atom count.  The source writes into
`np.empty_like(velocity)`, so entries at or beyond the atom count are
uninitialised storage; the model puts `0` there and no theorem relies on
them. -/
noncomputable def massWeight (masses : ℕ → ℝ) (n : ℤ) (v : List (List (Fin 3 → ℂ))) :
    List (List (Fin 3 → ℂ)) :=
  v.map (fun frame =>
    (List.range frame.length).map (fun (i : ℕ) =>
      if (i : ℤ) < n then (fun ax => ((Real.sqrt (masses i) : ℝ) : ℂ) * frame.getD i (fun _ => 0) ax)
      else (fun _ => 0)))

/-- `Dynamics.get_velocity_mass_average`: cached, otherwise computed from the
`velocity` property, the supercell matrix and the atom count (each of which
may abort). -/
noncomputable def Dynamics.get_velocity_mass_average (ext : Externals) (d : Dynamics) :
    Option (List (List (Fin 3 → ℂ)) × Dynamics) :=
  match d._velocity_mass_average with
  | some m => some (m, d)
  | none =>
      (d.velocity ext).bind (fun vp =>
        (vp.2.get_super_cell_matrix (1 / 100)).bind (fun scp =>
          (scp.2.get_number_of_atoms).map (fun np =>
            let m := massWeight (np.2._structure.masses scp.1) np.1 vp.1
            (m, { np.2 with _velocity_mass_average := some m }))))

/-! ## power_spectrum.py -/

/-- The unit conversion constant of `power_spectrum.py`
(`u * A^2 * THz -> eV * ps`). -/
noncomputable def unit_conversion : ℝ := 6.651206285e-4

/-- The configuration object consumed by the spectral estimators, restricted
to the fields the embedded functions read. -/
structure Parameters where
  frequency_range : List ℝ
  number_of_coefficients_mem : ℕ
  mem_scan_range : List ℕ
  zero_padding : ℕ

/-- External collaborators of `power_spectrum.py` (spec §6): the
maximum-entropy solver `mem` (frequency grid, series, time step, coefficient
count), scipy's `curve_fit` specialised to the Lorentzian model function
(abscissas, data, initial guess `(position, half width, area scale,
baseline)`; `none` is a fit failure), and `get_error_from_covariance` on the
returned covariance matrix. -/
structure PSExternals where
  mem : List ℝ → List ℂ → ℚ → ℕ → List ℝ
  curve_fit : List ℝ → List ℝ → (ℝ × ℝ × ℝ × ℝ) → Option ((ℝ × ℝ × ℝ × ℝ) × List (List ℝ))
  get_error_from_covariance : List (List ℝ) → ℝ

/-- `np.max` of a 1-D array (the empty case never matters for the claims). -/
noncomputable def listMax : List ℝ → ℝ
  | [] => 0
  | v :: t => t.foldl max v

/-- Helper for `np.argmax`: first index attaining the running maximum. -/
noncomputable def argmaxFrom : ℕ → ℕ → ℝ → List ℝ → ℕ
  | _, bi, _, [] => bi
  | i, bi, bv, v :: t => if bv < v then argmaxFrom (i + 1) i v t else argmaxFrom (i + 1) bi bv t

/-- `np.argmax`: index of the first occurrence of the maximum. -/
noncomputable def argmaxIdx : List ℝ → ℕ
  | [] => 0
  | v :: t => argmaxFrom 1 0 v t

/-- Helper for `np.argmin`: first index attaining the running minimum. -/
noncomputable def argminFrom : ℕ → ℕ → ℝ → List ℝ → ℕ
  | _, bi, _, [] => bi
  | i, bi, bv, v :: t => if v < bv then argminFrom (i + 1) i v t else argminFrom (i + 1) bi bv t

/-- `np.argmin`: index of the first occurrence of the minimum. -/
noncomputable def argminIdx : List ℝ → ℕ
  | [] => 0
  | v :: t => argminFrom 1 0 v t

/-- `np.average(values, weights)`: the weighted mean `Σ vᵢwᵢ / Σ wᵢ`. -/
noncomputable def weightedAverage (values weights : List ℝ) : ℝ :=
  ((values.zip weights).map (fun p => p.1 * p.2)).sum / weights.sum

/-- `np.array(m).T` for a rectangular list-of-rows matrix. -/
def matTranspose (m : List (List ℝ)) : List (List ℝ) :=
  (List.range ((m.headD []).length)).map (fun j => m.map (fun row => row.getD j 0))

/-- Column `i` of a time-major matrix, `vq[:, i]`. -/
def column (vq : List (List ℂ)) (i : ℕ) : List ℂ :=
  vq.map (fun row => row.getD i 0)

/-- `vq.shape[1]` of a rectangular time-major matrix. -/
def numColumns (vq : List (List ℂ)) : ℕ := (vq.headD []).length

/-- `get_mem_spectra_par_openmp`: aborts (`exit()`) when the number of time
samples is at most the configured coefficient count plus one; otherwise one
`mem` spectrum per mode column, stacked, transposed and scaled by the unit
conversion constant.  The average time step is looked up inside the per-mode
loop, so with zero mode columns it is never needed. -/
noncomputable def get_mem_spectra_par_openmp (ext : PSExternals) (vq : List (List ℂ))
    (traj : Dynamics) (pars : Parameters) : Option (List (List ℝ)) :=
  if vq.length ≤ pars.number_of_coefficients_mem + 1 then none
  else if numColumns vq = 0 then some (matTranspose [])
  else
    (traj.get_time_step_average).map (fun dtp =>
      (matTranspose ((List.range (numColumns vq)).map (fun i =>
        ext.mem pars.frequency_range (column vq i) dtp.1 pars.number_of_coefficients_mem))).map
        (List.map (fun x => unit_conversion * x)))

/-- One candidate step of the MEM coefficient scan of
`mem_coefficient_scan_analysis`: the spectrum for `c` coefficients, its peak
height and position, and the Lorentzian fit attempt seeded with
`(position, 0.1, height, 0.0)`. On success it appends the record
`(c, 2·half width, error / (area scale / (half width · π)))`, the fit
parameters and the spectrum; on failure it leaves the accumulators
unchanged. -/
noncomputable def scanStep (ext : PSExternals) (freqs : List ℝ) (col : List ℂ) (dt : ℚ)
    (acc : List (ℕ × ℝ × ℝ) × List (ℝ × ℝ × ℝ × ℝ) × List (List ℝ)) (c : ℕ) :
    List (ℕ × ℝ × ℝ) × List (ℝ × ℝ × ℝ × ℝ) × List (List ℝ) :=
  let ps := ext.mem freqs col dt c
  let height := listMax ps
  let position := freqs.getD (argmaxIdx ps) 0
  match ext.curve_fit freqs ps (position, 0.1, height, 0) with
  | none => acc
  | some fit =>
      (acc.1 ++ [(c, 2 * fit.1.2.1,
          ext.get_error_from_covariance fit.2 / (fit.1.2.2.1 / (fit.1.2.1 * Real.pi)))],
       acc.2.1 ++ [fit.1],
       acc.2.2 ++ [ps])

/-- The full per-mode candidate loop of `mem_coefficient_scan_analysis`,
accumulating `(fit_data, scan_params, power_spectra)`. -/
noncomputable def scanMode (ext : PSExternals) (freqs : List ℝ) (col : List ℂ) (dt : ℚ)
    (scan_range : List ℕ) :
    List (ℕ × ℝ × ℝ) × List (ℝ × ℝ × ℝ × ℝ) × List (List ℝ) :=
  scan_range.foldl (scanStep ext freqs col dt) ([], [], [])

/-- One entry of `mem_full_dict`: the best spectrum, the weighted best width,
the index of the best candidate, the rows of the transposed `fit_data` array
and the recorded fit parameters. -/
structure ModeResult where
  power_spectrum : List ℝ
  best_width : ℝ
  best_index : ℕ
  fit_coefficients : List ℕ
  fit_widths : List ℝ
  fit_errors : List ℝ
  scan_params : List (ℝ × ℝ × ℝ × ℝ)

/-- The per-mode summary step of `mem_coefficient_scan_analysis` after the
candidate loop: with no recorded fit, `np.array([]).T` followed by
`fit_data[1]` raises an `IndexError` (modelled as `none`); otherwise the
weighted best width, the argmin of the normalized errors and the
corresponding spectrum are assembled. -/
noncomputable def modeSummary
    (acc : List (ℕ × ℝ × ℝ) × List (ℝ × ℝ × ℝ × ℝ) × List (List ℝ)) : Option ModeResult :=
  match acc.1 with
  | [] => none
  | _ :: _ =>
      let errors := acc.1.map (fun r => r.2.2)
      let widths := acc.1.map (fun r => r.2.1)
      some
        { power_spectrum := acc.2.2.getD (argminIdx errors) []
          best_width := weightedAverage widths (errors.map (fun e => Real.sqrt (1 / e)))
          best_index := argminIdx errors
          fit_coefficients := acc.1.map (fun r => r.1)
          fit_widths := widths
          fit_errors := errors
          scan_params := acc.2.1 }

/-- Sequencing of the per-mode computations: the first abort (`none`) stops
the whole routine, mirroring an uncaught exception in the Python loop. -/
def collectModes (g : ℕ → Option ModeResult) : List ℕ → Option (List ModeResult)
  | [] => some []
  | i :: t => (g i).bind (fun r => (collectModes g t).map (fun rs => r :: rs))

/-- `mem_coefficient_scan_analysis`: for every mode column, the coefficient
scan followed by the summary.  The average time step is read through the
trajectory object inside the loop, hence only when there is at least one
mode column.  The second Python loop only prints and plots and is not
modelled. -/
noncomputable def mem_coefficient_scan_analysis (ext : PSExternals) (vq : List (List ℂ))
    (traj : Dynamics) (pars : Parameters) : Option (List ModeResult) :=
  if numColumns vq = 0 then some []
  else
    (traj.get_time_step_average).bind (fun dtp =>
      collectModes
        (fun i => modeSummary (scanMode ext pars.frequency_range (column vq i) dtp.1
          pars.mem_scan_range))
        (List.range (numColumns vq)))

/-! ### FFT method -/

/-- Read a real list at an integer index, `0` outside the valid range;
used to express the implicit zero extension in `np.correlate`. -/
def getZ (x : List ℝ) (i : ℤ) : ℝ :=
  if 0 ≤ i ∧ i < x.length then x.getD i.toNat 0 else 0

/-- `np.correlate(x, x, mode='same')` for a real series of length `N`: entry
`out` is entry `out + (N-1)/2` of the full correlation
`z[k] = Σ_j x[j]·x[j+(N-1)-k]` (the middle `N` entries of the length
`2N-1` full mode). -/
noncomputable def npCorrelateSameAuto (x : List ℝ) : List ℝ :=
  (List.range x.length).map (fun out =>
    ∑ j in Finset.range x.length,
      x.getD j 0 * getZ x ((j : ℤ) + ((x.length : ℤ) - 1) - ((out + (x.length - 1) / 2 : ℕ) : ℤ)))

/-- `autocorrelation` of `power_spectrum.py`: the same-mode correlation of
the series with itself divided by its length. -/
noncomputable def autocorrelation (x : List ℝ) : List ℝ :=
  (npCorrelateSameAuto x).map (fun r => r / (x.length : ℝ))

/-- `np.fft.fft` of a real list:
`F[k] = Σ_n data[n]·exp(-2πi·k·n/L)`. -/
noncomputable def npFFT (data : List ℝ) : List ℂ :=
  (List.range data.length).map (fun (k : ℕ) =>
    ∑ n in Finset.range data.length,
      (data.getD n 0 : ℂ) *
        Complex.exp (-2 * (Real.pi : ℂ) * Complex.I * (k : ℂ) * (n : ℂ) / (data.length : ℂ)))

/-- `np.fft.fftfreq(L, d)`: nonnegative frequencies `k/(L·d)` for
`k < (L+1)/2`, then the negative frequencies `(k-L)/(L·d)`. -/
noncomputable def npFFTfreq (L : ℕ) (d : ℝ) : List ℝ :=
  (List.range L).map (fun k => (if k < (L + 1) / 2 then (k : ℝ) else (k : ℝ) - L) / (L * d))

/-- `np.argsort` on a real list: the list of indices sorted by the values
they point at (the values are pairwise distinct wherever this is used, so
the permutation is unambiguous). -/
noncomputable def npArgsort (xs : List ℝ) : List ℕ :=
  (List.range xs.length).mergeSort (fun a b => decide (xs.getD a 0 ≤ xs.getD b 0))

/-- `np.interp(x, xp, fp)` on a list of `(xp, fp)` pairs with ascending
abscissas: clamped at the two ends, piecewise linear in between. -/
noncomputable def npInterpPairs (x : ℝ) : List (ℝ × ℝ) → ℝ
  | [] => 0
  | [p] => p.2
  | p :: q :: rest =>
      if x < q.1 then
        (if x ≤ p.1 then p.2 else p.2 + (q.2 - p.2) * (x - p.1) / (q.1 - p.1))
      else npInterpPairs x (q :: rest)

/-- `np.interp(x, xp, fp)` on two separate coordinate lists. -/
noncomputable def npInterp (x : ℝ) (xp fp : List ℝ) : ℝ :=
  npInterpPairs x (xp.zip fp)

/-- `fft_power` of `power_spectrum.py`, transcribed line by line:
autocorrelation, right zero padding, scaled DFT magnitude, DFT frequency
axis of the padded length, argsort of the axis and linear interpolation of
the gathered arrays onto the requested grid. -/
noncomputable def fft_power (frequency_range : List ℝ) (data : List ℝ) (time_step : ℝ)
    (zero_padding : ℕ) : List ℝ :=
  let data1 := autocorrelation data
  let data2 := data1 ++ List.replicate zero_padding 0
  let ps := (npFFT data2).map (fun z => Complex.abs z * time_step / 2)
  let freqs := npFFTfreq data2.length time_step
  let idx := npArgsort freqs
  frequency_range.map (fun f =>
    npInterp f (idx.map (fun i => freqs.getD i 0)) (idx.map (fun i => ps.getD i 0)))

/-- Modelled from the spec's description of the FFT-autocorrelation method:
the frequency axis is paired with the magnitude spectrum and the pairs are
sorted by frequency into ascending order. -/
noncomputable def sortedFreqSpectrum (freqs ps : List ℝ) : List (ℝ × ℝ) :=
  (freqs.zip ps).mergeSort (fun a b => decide (a.1 ≤ b.1))

/-- Modelled from the spec: the FFT-autocorrelation method as the literal
composition stated in §4.3 — same-length centered autocorrelation of the
series divided by its length, right zero padding by the configured amount,
magnitude of the discrete Fourier transform scaled by `time_step/2`, the
DFT frequency axis built from the padded length and sampling interval and
sorted into ascending order, and linear interpolation of the magnitude
spectrum onto the supplied frequency grid. -/
noncomputable def fftPipelineSpec (frequency_range : List ℝ) (data : List ℝ) (time_step : ℝ)
    (zero_padding : ℕ) : List ℝ :=
  let ac := autocorrelation data
  let padded := ac ++ List.replicate zero_padding 0
  let mags := (npFFT padded).map (fun z => Complex.abs z * time_step / 2)
  let axis := npFFTfreq padded.length time_step
  frequency_range.map (fun f => npInterpPairs f (sortedFreqSpectrum axis mags))

/-! ## Concrete fixtures used by witnesses and counterexamples -/

/-- The identity cell matrix. -/
def idCell : Fin 3 → Fin 3 → ℚ := fun i j => if i = j then 1 else 0

/-- A one-atom reference structure with identity cell and mass 4. -/
def structId : Structure := ⟨idCell, 1, fun _ _ => 4, 3⟩

/-- Trivial external collaborators for paths that are never exercised. -/
def extTriv : Externals := ⟨fun _ => none, fun l _ => l⟩

/-- The zero 3-vector frame entry. -/
def zero3 : Fin 3 → ℂ := fun _ => 0

/-- A one-atom snapshot. -/
def frameA : List (Fin 3 → ℂ) := [zero3]

/-! ## Helper lemmas -/

/-- A uniformly spaced time series of length `N` with step `step`. -/
def uniformTime (t0 step : ℚ) (N : ℕ) : List ℚ :=
  (List.range N).map (fun (i : ℕ) => t0 + (i : ℚ) * step)

lemma uniformTime_getD (t0 step : ℚ) (N j : ℕ) (hj : j < N) :
    (uniformTime t0 step N).getD j 0 = t0 + j * step := by
  rw [uniformTime, List.getD_eq_getElem?_getD, List.getElem?_map, List.getElem?_range hj]
  rfl

lemma uniformTime_length (t0 step : ℚ) (N : ℕ) : (uniformTime t0 step N).length = N := by
  rw [uniformTime, List.length_map, List.length_range]

lemma timeStepAvgCalc_uniform (t0 step : ℚ) (N : ℕ) (hN : 2 ≤ N) :
    timeStepAvgCalc (uniformTime t0 step N) = step := by
  have hlen := uniformTime_length t0 step N
  have hcast : ((N : ℚ) - 1) ≠ 0 := by
    have : (2 : ℚ) ≤ (N : ℚ) := by exact_mod_cast hN
    intro h
    nlinarith
  unfold timeStepAvgCalc
  rw [hlen]
  have hterm : ∀ i ∈ Finset.range (N - 1),
      ((uniformTime t0 step N).getD (i + 1) 0 - (uniformTime t0 step N).getD i 0) /
        ((N : ℚ) - 1) = step / ((N : ℚ) - 1) := by
    intro i hi
    have hi1 : i + 1 < N := by
      have := Finset.mem_range.mp hi
      omega
    have hi0 : i < N := by omega
    rw [uniformTime_getD t0 step N _ hi1, uniformTime_getD t0 step N _ hi0]
    push_cast
    ring_nf
  have hNc : ((N - 1 : ℕ) : ℚ) = (N : ℚ) - 1 := by
    have h1 : 1 ≤ N := by omega
    push_cast [Nat.cast_sub h1]
    ring
  rw [Finset.sum_congr rfl hterm, Finset.sum_const, Finset.card_range, nsmul_eq_mul, hNc]
  field_simp

/-- **C10.** On a uniformly spaced time series of length `N ≥ 2` with step
`step` and an empty cache, `get_time_step_average` returns exactly `step`
(the sum of consecutive differences divided by `N-1` telescopes), caching
it, independently of `N`. -/
theorem c10_time_step_average (d : Dynamics) (t0 step : ℚ) (N : ℕ) (hN : 2 ≤ N)
    (hcache : d._time_step_average = none)
    (htime : d._time = some (uniformTime t0 step N)) :
    d.get_time_step_average = some (step, { d with _time_step_average := some step }) := by
  have havg := timeStepAvgCalc_uniform t0 step N hN
  simp only [Dynamics.get_time_step_average, hcache, timeStepCompute, htime, havg]

/-- Concrete instance for C10: two samples 0 and 1, step 1. -/
def dT10 : Dynamics :=
  ⟨some (uniformTime 0 1 2), none, none, none, idCell, structId, none, none, none, none,
    none, none⟩

/-- Witness for C10 at a concrete uniform series. -/
theorem c10_witness :
    2 ≤ 2 ∧ dT10.get_time_step_average =
      some (1, { dT10 with _time_step_average := some 1 }) :=
  ⟨le_refl 2, c10_time_step_average dT10 0 1 2 (le_refl 2) rfl rfl⟩

lemma get_super_cell_matrix_pass (d : Dynamics) (tol : ℝ)
    (hcache : d._super_cell_matrix = none)
    (hdev : superCellDeviation d._super_cell d._structure.cell ≤ tol) :
    d.get_super_cell_matrix tol =
      some (superCellRounded d._super_cell d._structure.cell,
        { d with
            _super_cell_matrix := some (superCellRounded d._super_cell d._structure.cell) }) := by
  simp only [Dynamics.get_super_cell_matrix, hcache]
  rw [if_neg (not_lt.mpr hdev)]

/-- **C1.** With an empty cache, `get_super_cell_matrix` halts the process
(`none`) exactly when the deviation of the rounded integer vector from the
real-valued norm ratio — measured, as in the source, by
`abs(sum(rounded - real)/norm(real))` — exceeds the tolerance (default
`0.01`); otherwise it returns the rounded vector and stores it in the
cache. -/
theorem c1_super_cell_matrix_halt_iff (d : Dynamics) (tol : ℝ)
    (hcache : d._super_cell_matrix = none) :
    (d.get_super_cell_matrix tol = none ↔
      superCellDeviation d._super_cell d._structure.cell > tol) ∧
    (superCellDeviation d._super_cell d._structure.cell ≤ tol →
      d.get_super_cell_matrix tol =
        some (superCellRounded d._super_cell d._structure.cell,
          { d with
              _super_cell_matrix := some (superCellRounded d._super_cell d._structure.cell) })) := by
  constructor
  · simp only [Dynamics.get_super_cell_matrix, hcache]
    by_cases h : superCellDeviation d._super_cell d._structure.cell > tol
    · simp [h]
    · simp [h]
  · intro h
    exact get_super_cell_matrix_pass d tol hcache h

lemma cellParameters_id (j : Fin 3) : cellParameters idCell j = 1 := by
  fin_cases j <;> simp [cellParameters, idCell]

lemma npAround_one : npAround 1 = 1 := by
  unfold npAround
  rw [if_neg (by norm_num [Int.fract_one]), round_one]

lemma superCellRatio_id (j : Fin 3) : superCellRatio idCell idCell j = 1 := by
  simp [superCellRatio, cellParameters_id]

lemma superCellDeviation_id : superCellDeviation idCell idCell = 0 := by
  unfold superCellDeviation
  have h2 : ∀ j : Fin 3, ((superCellRounded idCell idCell j : ℝ) -
      superCellRatio idCell idCell j) = 0 := by
    intro j
    rw [superCellRounded, superCellRatio_id, npAround_one]
    norm_num
  rw [Finset.sum_congr rfl (fun j _ => h2 j)]
  simp

/-- A `Dynamics` with identity simulation cell and identity reference cell
and no caches. -/
def dSC : Dynamics :=
  ⟨none, none, none, none, idCell, structId, none, none, none, none, none, none⟩

/-- Witness for C1: with matching identity cells the deviation is within the
default tolerance and the rounded vector is returned and cached. -/
theorem c1_witness :
    superCellDeviation dSC._super_cell dSC._structure.cell ≤ 1 / 100 ∧
    dSC.get_super_cell_matrix (1 / 100) =
      some (superCellRounded dSC._super_cell dSC._structure.cell,
        { dSC with
            _super_cell_matrix := some (superCellRounded dSC._super_cell dSC._structure.cell) }) := by
  have hd : superCellDeviation dSC._super_cell dSC._structure.cell ≤ 1 / 100 := by
    show superCellDeviation idCell idCell ≤ 1 / 100
    rw [superCellDeviation_id]
    norm_num
  exact ⟨hd, (c1_super_cell_matrix_halt_iff dSC (1 / 100) rfl).2 hd⟩

/-! ## C2 / C3: crop_trajectory -/

lemma crop_trajectory_pos (ext : Externals) (d : Dynamics) (k : ℤ) (hk : 0 < k)
    (v : List (List (Fin 3 → ℂ))) (hv : d._velocity = some v) :
    d.crop_trajectory ext (some k) =
      some { d with
        _trajectory := d._trajectory.map (lastSlice k)
        _energy := d._energy.map (lastSlice k)
        _time := d._time.map (lastSlice k)
        _velocity := some (lastSlice k v)
        _velocity_mass_average := none
        _relative_trajectory := none } := by
  obtain ⟨t, tr, e, vel, sc, st, tsa, vma, rt, scm, na, mdm⟩ := d
  obtain rfl : vel = some v := hv
  simp only [Dynamics.crop_trajectory]
  rw [if_neg (by omega : ¬ k < 0)]
  cases tr <;> cases e <;> cases t <;> simp [Dynamics.velocity]

/-- **C2 (amended).** `crop_trajectory` is a no-op for an absent or negative
`last_steps`; for a positive `last_steps` every present series keeps exactly
its last `min(length, last_steps)` samples (all of them, with only a
warning, when `last_steps` exceeds the length) and the mass-weighted
velocity and relative trajectory caches are reset.  For `last_steps = 0`
the Python slice `[-0:]` keeps everything, so the claim's "exactly the last
`last_steps` samples" holds for positive counts only. -/
theorem c2_crop_amended (ext : Externals) (d : Dynamics) :
    (d.crop_trajectory ext none = some d) ∧
    (∀ k : ℤ, k < 0 → d.crop_trajectory ext (some k) = some d) ∧
    (∀ k : ℤ, 0 < k → ∀ v, d._velocity = some v →
      d.crop_trajectory ext (some k) =
        some { d with
          _trajectory := d._trajectory.map (lastSlice k)
          _energy := d._energy.map (lastSlice k)
          _time := d._time.map (lastSlice k)
          _velocity := some (lastSlice k v)
          _velocity_mass_average := none
          _relative_trajectory := none }) ∧
    (∀ (k : ℤ) (l : List (List (Fin 3 → ℂ))), 0 < k →
      (lastSlice k l).length = min l.length k.toNat ∧
        lastSlice k l = l.drop (l.length - k.toNat)) := by
  refine ⟨rfl, ?_, ?_, ?_⟩
  · intro k hk
    simp [Dynamics.crop_trajectory, if_pos hk]
  · intro k hk v hv
    exact crop_trajectory_pos ext d k hk v hv
  · intro k l hk
    constructor
    · rw [lastSlice, if_neg (by omega : k ≠ 0), List.length_drop]
      omega
    · rw [lastSlice, if_neg (by omega : k ≠ 0)]

/-- Trajectory and velocity of two snapshots, nothing else loaded, no
caches. -/
def dC2 : Dynamics :=
  ⟨none, some [frameA, frameA], none, some [frameA, frameA], idCell, structId, none, none,
    none, none, none, none⟩

/-- **C2 counterexample.** The claim demands that `crop_trajectory(0)` on a
2-sample trajectory keep exactly the last 0 samples (2 > 0 and 0 is neither
absent nor negative), but the code's `[-0:]` slice keeps both samples. -/
theorem c2_counterexample :
    (dC2.crop_trajectory extTriv (some 0)).map (fun r => r._trajectory.map List.length) =
      some (some 2) ∧ (2 : ℕ) ≠ 0 := by
  exact ⟨rfl, by decide⟩

/-- Witness for the amended C2 at a concrete 2-sample state cropped to its
last sample. -/
theorem c2_witness :
    (0 : ℤ) < 1 ∧
    dC2.crop_trajectory extTriv (some 1) =
      some { dC2 with
        _trajectory := dC2._trajectory.map (lastSlice 1)
        _energy := dC2._energy.map (lastSlice 1)
        _time := dC2._time.map (lastSlice 1)
        _velocity := some (lastSlice 1 [frameA, frameA])
        _velocity_mass_average := none
        _relative_trajectory := none } :=
  ⟨by norm_num, (c2_crop_amended extTriv dC2).2.2.1 1 (by norm_num) [frameA, frameA] rfl⟩

/-- **C3 (amended).** A truncating crop resets the mass-weighted-velocity
and relative-trajectory caches, but it does 'not' invalidate the supercell
matrix or mean-displacement-matrix caches: both survive unchanged, and a
subsequent `get_super_cell_matrix` call returns the value cached before the
crop without recomputation. -/
theorem c3_cache_amended (ext : Externals) (d : Dynamics) (k : ℤ) (hk : 0 < k)
    (v : List (List (Fin 3 → ℂ))) (hv : d._velocity = some v) :
    ∃ d2, d.crop_trajectory ext (some k) = some d2 ∧
      d2._velocity_mass_average = none ∧
      d2._relative_trajectory = none ∧
      d2._super_cell_matrix = d._super_cell_matrix ∧
      d2._mean_displacement_matrix = d._mean_displacement_matrix ∧
      (∀ m, d._super_cell_matrix = some m → ∀ tol, d2.get_super_cell_matrix tol = some (m, d2)) := by
  refine ⟨_, crop_trajectory_pos ext d k hk v hv, rfl, rfl, rfl, rfl, ?_⟩
  intro m hm tol
  simp [Dynamics.get_super_cell_matrix, hm]

/-- A state with every derived cache populated before the crop. -/
def scmC : Fin 3 → ℤ := fun _ => 2

/-- Pre-crop cached mean-displacement matrix value. -/
def mdmC : ℕ → Fin 3 → Fin 3 → ℝ := fun _ _ _ => 1

/-- Two-snapshot state with all four derived caches populated. -/
def dC3 : Dynamics :=
  ⟨none, some [frameA, frameA], none, some [frameA, frameA], idCell, structId, none,
    some [frameA], some [frameA], some scmC, some 8, some mdmC⟩

/-- **C3 counterexample.** Cropping a 2-sample trajectory to its last sample
leaves the supercell-matrix and mean-displacement-matrix caches populated
with their pre-crop values, contradicting the claim that all four cached
derived buffers are invalidated. -/
theorem c3_counterexample :
    (dC3.crop_trajectory extTriv (some 1)).map
        (fun r => (r._trajectory.map List.length, r._super_cell_matrix,
          r._mean_displacement_matrix)) =
      some (some 1, some scmC, some mdmC) ∧
    some scmC ≠ (none : Option (Fin 3 → ℤ)) := by
  exact ⟨rfl, by simp⟩

/-- Witness for the amended C3 at the concrete pre-populated state. -/
theorem c3_witness :
    (0 : ℤ) < 1 ∧
    ∃ d2, dC3.crop_trajectory extTriv (some 1) = some d2 ∧
      d2._velocity_mass_average = none ∧
      d2._relative_trajectory = none ∧
      d2._super_cell_matrix = dC3._super_cell_matrix ∧
      d2._mean_displacement_matrix = dC3._mean_displacement_matrix ∧
      (∀ m, dC3._super_cell_matrix = some m → ∀ tol,
        d2.get_super_cell_matrix tol = some (m, d2)) :=
  ⟨by norm_num, c3_cache_amended extTriv dC3 1 (by norm_num) [frameA, frameA] rfl⟩

/-! ## C7: the Maximum-Entropy entry point guard -/

/-- **C7.** Provided the average time step is obtainable (the loop body
needs it), `get_mem_spectra_par_openmp` aborts up front — before any `mem`
call — exactly when the configured coefficient count is not strictly less
than the number of time samples minus one; otherwise it succeeds and the
result is the transpose of one `mem` spectrum per mode column, scaled by
the unit conversion constant. -/
theorem c7_mem_guard (ext : PSExternals) (vq : List (List ℂ)) (d : Dynamics)
    (pars : Parameters) (hdt : ∃ p, d.get_time_step_average = some p) :
    (get_mem_spectra_par_openmp ext vq d pars = none ↔
      ¬ pars.number_of_coefficients_mem < vq.length - 1) ∧
    (pars.number_of_coefficients_mem < vq.length - 1 →
      ∃ spectra : List (List ℝ),
        spectra.length = numColumns vq ∧
        (∀ i, i < numColumns vq → ∀ p, d.get_time_step_average = some p →
          spectra.getD i [] =
            ext.mem pars.frequency_range (column vq i) p.1 pars.number_of_coefficients_mem) ∧
        get_mem_spectra_par_openmp ext vq d pars =
          some ((matTranspose spectra).map (List.map (fun x => unit_conversion * x)))) := by
  obtain ⟨p, hp⟩ := hdt
  have harith : (vq.length ≤ pars.number_of_coefficients_mem + 1) ↔
      ¬ pars.number_of_coefficients_mem < vq.length - 1 := by omega
  constructor
  · by_cases hguard : vq.length ≤ pars.number_of_coefficients_mem + 1
    · simp [get_mem_spectra_par_openmp, hguard, harith.mp hguard]
    · have hlt : pars.number_of_coefficients_mem < vq.length - 1 := by omega
      by_cases hc : numColumns vq = 0
      · simp [get_mem_spectra_par_openmp, hguard, hc, hlt]
      · simp [get_mem_spectra_par_openmp, hguard, hc, hlt, hp]
  · intro hlt
    have hguard : ¬ vq.length ≤ pars.number_of_coefficients_mem + 1 := by omega
    refine ⟨(List.range (numColumns vq)).map (fun i =>
      ext.mem pars.frequency_range (column vq i) p.1 pars.number_of_coefficients_mem),
      by simp, ?_, ?_⟩
    · intro i hi q hq
      have hpq : q = p := by
        rw [hp] at hq
        exact (Option.some_injective _ hq).symm
      subst hpq
      rw [List.getD_eq_getElem?_getD, List.getElem?_map, List.getElem?_range hi]
      rfl
    · by_cases hc : numColumns vq = 0
      · simp [get_mem_spectra_par_openmp, hguard, hc, matTranspose]
      · simp [get_mem_spectra_par_openmp, hguard, hc, hp]

/-- State whose average-time-step cache holds 1. -/
def dDT : Dynamics :=
  ⟨none, none, none, none, idCell, structId, some 1, none, none, none, none, none⟩

/-- External spectral collaborators returning fixed values. -/
def psExtW : PSExternals := ⟨fun _ _ _ _ => [5], fun _ _ _ => none, fun _ => 0⟩

/-- Parameters with one grid point, one MEM coefficient. -/
def parsW : Parameters := ⟨[0], 1, [], 0⟩

/-- Witness for C7: three time samples, one coefficient, so the guard
passes, and the guard equivalence holds at this concrete input. -/
theorem c7_witness :
    (get_mem_spectra_par_openmp psExtW [[0], [0], [0]] dDT parsW = none ↔
      ¬ parsW.number_of_coefficients_mem < [[0], [0], [0]].length - 1) ∧
    ¬ get_mem_spectra_par_openmp psExtW [[0], [0], [0]] dDT parsW = none := by
  have hdt : ∃ p, dDT.get_time_step_average = some p := by
    exact ⟨(1, dDT), by norm_num [Dynamics.get_time_step_average, dDT]⟩
  have h := (c7_mem_guard psExtW [[0], [0], [0]] dDT parsW hdt).1
  exact ⟨h, by
    rw [h]
    norm_num [parsW]⟩

/-! ## C4 / C6: the MEM coefficient scan -/

/-- The `fit_data` record produced by one candidate of the MEM coefficient
scan, `none` when the Lorentzian fit fails. -/
noncomputable def scanRecord (ext : PSExternals) (freqs : List ℝ) (col : List ℂ) (dt : ℚ)
    (c : ℕ) : Option (ℕ × ℝ × ℝ) :=
  let ps := ext.mem freqs col dt c
  (ext.curve_fit freqs ps (freqs.getD (argmaxIdx ps) 0, 0.1, listMax ps, 0)).map (fun fit =>
    (c, 2 * fit.1.2.1,
      ext.get_error_from_covariance fit.2 / (fit.1.2.2.1 / (fit.1.2.1 * Real.pi))))

/-- The fit parameters recorded by one successful candidate of the scan. -/
noncomputable def scanFitParams (ext : PSExternals) (freqs : List ℝ) (col : List ℂ) (dt : ℚ)
    (c : ℕ) : Option (ℝ × ℝ × ℝ × ℝ) :=
  let ps := ext.mem freqs col dt c
  (ext.curve_fit freqs ps (freqs.getD (argmaxIdx ps) 0, 0.1, listMax ps, 0)).map (fun fit =>
    fit.1)

/-- The spectrum recorded by one successful candidate of the scan. -/
noncomputable def scanSpectra (ext : PSExternals) (freqs : List ℝ) (col : List ℂ) (dt : ℚ)
    (c : ℕ) : Option (List ℝ) :=
  let ps := ext.mem freqs col dt c
  (ext.curve_fit freqs ps (freqs.getD (argmaxIdx ps) 0, 0.1, listMax ps, 0)).map (fun _ => ps)

lemma scanStep_eq (ext : PSExternals) (freqs : List ℝ) (col : List ℂ) (dt : ℚ)
    (acc : List (ℕ × ℝ × ℝ) × List (ℝ × ℝ × ℝ × ℝ) × List (List ℝ)) (c : ℕ) :
    scanStep ext freqs col dt acc c =
      (acc.1 ++ (scanRecord ext freqs col dt c).toList,
       acc.2.1 ++ (scanFitParams ext freqs col dt c).toList,
       acc.2.2 ++ (scanSpectra ext freqs col dt c).toList) := by
  unfold scanStep scanRecord scanFitParams scanSpectra
  dsimp only
  split <;> simp_all

lemma toList_append_filterMap {α β : Type} (f : α → Option β) (c : α) (t : List α) :
    (f c).toList ++ t.filterMap f = (c :: t).filterMap f := by
  cases h : f c <;> simp [List.filterMap_cons, h]

lemma scanMode_eq_filterMap (ext : PSExternals) (freqs : List ℝ) (col : List ℂ) (dt : ℚ)
    (sr : List ℕ) :
    scanMode ext freqs col dt sr =
      (sr.filterMap (scanRecord ext freqs col dt),
       sr.filterMap (scanFitParams ext freqs col dt),
       sr.filterMap (scanSpectra ext freqs col dt)) := by
  suffices h : ∀ acc, sr.foldl (scanStep ext freqs col dt) acc =
      (acc.1 ++ sr.filterMap (scanRecord ext freqs col dt),
       acc.2.1 ++ sr.filterMap (scanFitParams ext freqs col dt),
       acc.2.2 ++ sr.filterMap (scanSpectra ext freqs col dt)) by
    rw [scanMode, h ([], [], [])]
    simp
  induction sr with
  | nil => intro acc; simp
  | cons c t ih =>
      intro acc
      rw [List.foldl_cons, scanStep_eq, ih]
      simp [List.append_assoc, toList_append_filterMap]

lemma collectModes_all_some (g : ℕ → Option ModeResult) (l : List ℕ)
    (h : ∀ i ∈ l, ∃ r, g i = some r) :
    ∃ rs, collectModes g l = some rs ∧ rs.length = l.length := by
  induction l with
  | nil => exact ⟨[], rfl, rfl⟩
  | cons i t ih =>
      obtain ⟨r, hr⟩ := h i (List.mem_cons_self i t)
      obtain ⟨rs, hrs, hlen⟩ := ih (fun j hj => h j (List.mem_cons_of_mem i hj))
      exact ⟨r :: rs, by simp [collectModes, hr, hrs], by simp [hlen]⟩

instance : Inhabited ModeResult := ⟨⟨[], 0, 0, [], [], [], []⟩⟩

lemma collectModes_getD (g : ℕ → Option ModeResult) (l : List ℕ) (rs : List ModeResult)
    (h : collectModes g l = some rs) :
    rs.length = l.length ∧ ∀ i, i < l.length → g (l.getD i 0) = some (rs.getD i default) := by
  induction l generalizing rs with
  | nil =>
      simp only [collectModes, Option.some.injEq] at h
      subst h
      exact ⟨rfl, fun i hi => absurd hi (by simp)⟩
  | cons a t ih =>
      simp only [collectModes] at h
      cases hg : g a with
      | none => rw [hg] at h; simp at h
      | some r =>
          rw [hg] at h
          cases hct : collectModes g t with
          | none => rw [hct] at h; simp at h
          | some rsTail =>
              rw [hct] at h
              simp at h
              subst h
              obtain ⟨hlen, hget⟩ := ih rsTail hct
              refine ⟨by simp [hlen], ?_⟩
              intro i hi
              cases i with
              | zero => simpa using hg
              | succ j =>
                  have hj : j < t.length := by simpa using hi
                  simpa using hget j hj

/-- **C4 (amended).** A Lorentzian fit failure at one candidate is recovered
locally: the candidate is skipped and the scan proceeds, so the recorded
entries are exactly the successful candidates in scan order; and provided
every mode retains at least one successful candidate, the whole routine
completes with one summary per mode.  (When every candidate of some mode
fails, the empty record table makes `fit_data[1]` raise an `IndexError`
that does propagate out — see the counterexample.) -/
theorem c4_fit_failure_amended (ext : PSExternals) (vq : List (List ℂ)) (d : Dynamics)
    (pars : Parameters) (p : ℚ × Dynamics) (hdt : d.get_time_step_average = some p)
    (hsucc : ∀ i, i < numColumns vq →
      pars.mem_scan_range.filterMap
        (scanRecord ext pars.frequency_range (column vq i) p.1) ≠ []) :
    (∀ (freqs : List ℝ) (colv : List ℂ) (dtq : ℚ) (sr : List ℕ),
      scanMode ext freqs colv dtq sr =
        (sr.filterMap (scanRecord ext freqs colv dtq),
         sr.filterMap (scanFitParams ext freqs colv dtq),
         sr.filterMap (scanSpectra ext freqs colv dtq))) ∧
    ∃ rs, mem_coefficient_scan_analysis ext vq d pars = some rs ∧
      rs.length = numColumns vq := by
  refine ⟨fun freqs colv dtq sr => scanMode_eq_filterMap ext freqs colv dtq sr, ?_⟩
  by_cases hc : numColumns vq = 0
  · exact ⟨[], by simp [mem_coefficient_scan_analysis, hc], by simp [hc]⟩
  · have hall : ∀ i ∈ List.range (numColumns vq), ∃ r,
        modeSummary (scanMode ext pars.frequency_range (column vq i) p.1
          pars.mem_scan_range) = some r := by
      intro i hi
      have hi2 : i < numColumns vq := List.mem_range.mp hi
      rw [scanMode_eq_filterMap]
      rcases hfm : pars.mem_scan_range.filterMap
          (scanRecord ext pars.frequency_range (column vq i) p.1) with _ | ⟨a, l⟩
      · exact absurd hfm (hsucc i hi2)
      · exact ⟨_, rfl⟩
    obtain ⟨rs, hrs, hlen⟩ := collectModes_all_some _ _ hall
    refine ⟨rs, ?_, by simpa using hlen⟩
    simp [mem_coefficient_scan_analysis, hc, hdt, hrs]

/-- External spectral collaborators for which every fit fails. -/
def psExtFail : PSExternals := ⟨fun _ _ _ _ => [1], fun _ _ _ => none, fun _ => 0⟩

/-- One grid point, one mode, one scan candidate. -/
def parsFail : Parameters := ⟨[0], 1, [2], 0⟩

/-- **C4 counterexample.** When the fit fails for every candidate in the
range, `fit_data` stays empty and the routine crashes (`IndexError` on
`fit_data[1]`) — modelled as `none` — instead of completing a per-mode
summary, contradicting "a fit failure never propagates out of the routine
... including when the fit fails for every candidate in the range". -/
theorem c4_counterexample :
    mem_coefficient_scan_analysis psExtFail [[1]] dDT parsFail = none := by
  rfl

/-- Skip-one-candidate fixture: the fit fails on the length-1 spectrum of
candidate 1 and succeeds on the length-2 spectrum of candidate 2. -/
def psExtSkip : PSExternals :=
  ⟨fun _ _ _ c => List.replicate c 1,
   fun _ ps _ =>
     match ps with
     | [_] => none
     | _ => some ((1, 1, 1, 1), [[1]]),
   fun _ => 1⟩

/-- Scan range containing the failing candidate 1 and succeeding candidate 2. -/
def parsSkip : Parameters := ⟨[0], 1, [1, 2], 0⟩

/-- Witness for the amended C4: candidate 1 fails and is skipped, candidate
2 succeeds, and the routine completes with one summary for the one mode. -/
theorem c4_witness :
    dDT.get_time_step_average = some (1, dDT) ∧
    ∃ rs, mem_coefficient_scan_analysis psExtSkip [[1]] dDT parsSkip = some rs ∧
      rs.length = numColumns [[(1 : ℂ)]] := by
  have hdt : dDT.get_time_step_average = some (1, dDT) := by
    norm_num [Dynamics.get_time_step_average, dDT]
  refine ⟨hdt, (c4_fit_failure_amended psExtSkip [[1]] dDT parsSkip (1, dDT) hdt ?_).2⟩
  intro i hi
  have h1 : numColumns [[(1 : ℂ)]] = 1 := rfl
  rw [h1] at hi
  have hi0 : i = 0 := by omega
  subst hi0
  have hfm : parsSkip.mem_scan_range.filterMap
      (scanRecord psExtSkip parsSkip.frequency_range (column [[1]] 0) 1) =
      [(2, 2 * 1, 1 / (1 / (1 * Real.pi)))] := rfl
  simp [hfm]

/-- The records of the successful candidates of mode `i`'s coefficient
scan, in scan order. -/
noncomputable def modeRecords (ext : PSExternals) (pars : Parameters) (vq : List (List ℂ))
    (dt : ℚ) (i : ℕ) : List (ℕ × ℝ × ℝ) :=
  pars.mem_scan_range.filterMap (scanRecord ext pars.frequency_range (column vq i) dt)

/-- The fit parameters of the successful candidates of mode `i`'s scan. -/
noncomputable def modeParams (ext : PSExternals) (pars : Parameters) (vq : List (List ℂ))
    (dt : ℚ) (i : ℕ) : List (ℝ × ℝ × ℝ × ℝ) :=
  pars.mem_scan_range.filterMap (scanFitParams ext pars.frequency_range (column vq i) dt)

/-- The spectra of the successful candidates of mode `i`'s scan. -/
noncomputable def modeSpectra (ext : PSExternals) (pars : Parameters) (vq : List (List ℂ))
    (dt : ℚ) (i : ℕ) : List (List ℝ) :=
  pars.mem_scan_range.filterMap (scanSpectra ext pars.frequency_range (column vq i) dt)

/-- **C6.** Whenever the scan completes, each mode's summary records for
every successful candidate the triple `(coefficient count, 2 · half width,
covariance error / (area scale / (half width · π)))`; it reports as overall
best width the average of the recorded widths weighted by
`sqrt(1/normalized error)`; and it selects the recorded entry of minimum
normalized error, retaining its spectrum, its Lorentzian parameters (via
the recorded parameter table and the selected index) and its coefficient
count (via the recorded coefficient table and the selected index). -/
theorem c6_best_selection (ext : PSExternals) (vq : List (List ℂ)) (d : Dynamics)
    (pars : Parameters) (p : ℚ × Dynamics) (rs : List ModeResult)
    (hdt : d.get_time_step_average = some p)
    (h : mem_coefficient_scan_analysis ext vq d pars = some rs)
    (i : ℕ) (hi : i < numColumns vq) :
    modeRecords ext pars vq p.1 i ≠ [] ∧
    (rs.getD i default).fit_coefficients = (modeRecords ext pars vq p.1 i).map (fun t => t.1) ∧
    (rs.getD i default).fit_widths = (modeRecords ext pars vq p.1 i).map (fun t => t.2.1) ∧
    (rs.getD i default).fit_errors = (modeRecords ext pars vq p.1 i).map (fun t => t.2.2) ∧
    (rs.getD i default).best_width =
      weightedAverage ((modeRecords ext pars vq p.1 i).map (fun t => t.2.1))
        (((modeRecords ext pars vq p.1 i).map (fun t => t.2.2)).map
          (fun e => Real.sqrt (1 / e))) ∧
    (rs.getD i default).best_index =
      argminIdx ((modeRecords ext pars vq p.1 i).map (fun t => t.2.2)) ∧
    (rs.getD i default).power_spectrum =
      (modeSpectra ext pars vq p.1 i).getD
        (argminIdx ((modeRecords ext pars vq p.1 i).map (fun t => t.2.2))) [] ∧
    (rs.getD i default).scan_params = modeParams ext pars vq p.1 i := by
  have hc : ¬ numColumns vq = 0 := by omega
  simp only [mem_coefficient_scan_analysis, hc, if_false, hdt, Option.some_bind] at h
  obtain ⟨hlen, hget⟩ := collectModes_getD _ _ _ h
  have hri : (List.range (numColumns vq)).getD i 0 = i := by
    rw [List.getD_eq_getElem?_getD, List.getElem?_range hi]
    rfl
  have hgi := hget i (by simpa using hi)
  rw [hri, scanMode_eq_filterMap] at hgi
  simp only [modeRecords, modeParams, modeSpectra]
  rcases hfm : pars.mem_scan_range.filterMap
      (scanRecord ext pars.frequency_range (column vq i) p.1) with _ | ⟨a, l⟩
  · rw [hfm] at hgi
    simp [modeSummary] at hgi
  · rw [hfm] at hgi
    simp only [modeSummary, Option.some.injEq] at hgi
    rw [← hgi]
    simp

/-- Collaborators for the C6 witness: constant spectrum `[1]`, one fixed
successful fit `(2, 3, 5, 7)` with covariance `[[4]]`, covariance error 9. -/
def psExt6 : PSExternals :=
  ⟨fun _ _ _ _ => [1], fun _ _ _ => some ((2, 3, 5, 7), [[4]]), fun _ => 9⟩

/-- One grid point, scan range `[3]`. -/
def pars6 : Parameters := ⟨[0], 0, [3], 0⟩

/-- The mode summary produced by the C6 witness scan. -/
noncomputable def mode6 : ModeResult :=
  { power_spectrum := [1]
    best_width := weightedAverage [2 * 3] [Real.sqrt (1 / (9 / (5 / (3 * Real.pi))))]
    best_index := 0
    fit_coefficients := [3]
    fit_widths := [2 * 3]
    fit_errors := [9 / (5 / (3 * Real.pi))]
    scan_params := [(2, 3, 5, 7)] }

/-- Witness for C6 on a concrete one-mode, one-candidate scan whose single
record is `(3, 2·3, 9/(5/(3π)))`. -/
theorem c6_witness :
    modeRecords psExt6 pars6 [[1]] 1 0 ≠ [] ∧
    mode6.fit_coefficients = (modeRecords psExt6 pars6 [[1]] 1 0).map (fun t => t.1) ∧
    mode6.fit_widths = (modeRecords psExt6 pars6 [[1]] 1 0).map (fun t => t.2.1) ∧
    mode6.fit_errors = (modeRecords psExt6 pars6 [[1]] 1 0).map (fun t => t.2.2) ∧
    mode6.best_width =
      weightedAverage ((modeRecords psExt6 pars6 [[1]] 1 0).map (fun t => t.2.1))
        (((modeRecords psExt6 pars6 [[1]] 1 0).map (fun t => t.2.2)).map
          (fun e => Real.sqrt (1 / e))) ∧
    mode6.best_index = argminIdx ((modeRecords psExt6 pars6 [[1]] 1 0).map (fun t => t.2.2)) ∧
    mode6.power_spectrum =
      (modeSpectra psExt6 pars6 [[1]] 1 0).getD
        (argminIdx ((modeRecords psExt6 pars6 [[1]] 1 0).map (fun t => t.2.2))) [] ∧
    mode6.scan_params = modeParams psExt6 pars6 [[1]] 1 0 :=
  c6_best_selection psExt6 [[1]] dDT pars6 (1, dDT) [mode6]
    (by norm_num [Dynamics.get_time_step_average, dDT]) rfl 0 (by norm_num [numColumns])

/-! ## C8: mass weighting round trip -/

lemma massWeight_getD (masses : ℕ → ℝ) (n : ℤ) (v : List (List (Fin 3 → ℂ)))
    (t i : ℕ) (hi : (i : ℤ) < n) :
    ((massWeight masses n v).getD t []).getD i zero3 =
      if i < (v.getD t []).length then
        (fun ax => ((Real.sqrt (masses i) : ℝ) : ℂ) * (v.getD t []).getD i zero3 ax)
      else zero3 := by
  simp only [massWeight, List.getD_eq_getElem?_getD, List.getElem?_map]
  cases hvt : v[t]? with
  | none => simp [zero3]
  | some frame =>
      simp only [Option.map_some', Option.getD_some]
      by_cases hif : i < frame.length
      · simp only [List.getElem?_map, List.getElem?_range hif, Option.map_some',
          Option.getD_some, if_pos hi, if_pos hif, List.getElem?_eq_getElem hif]
      · have h1 : (List.range frame.length)[i]? = none := by
          rw [List.getElem?_eq_none_iff, List.length_range]
          omega
        simp [h1, if_neg hif, zero3]

/-- **C8.** For every valid atom index and time sample, the mass-weighted
velocity squared, summed over the spatial axis and divided by the atom's
supercell-resolved mass, equals the squared magnitude of the unweighted
velocity: mass weighting is exactly multiplication by `sqrt(mass)` per
atom. -/
theorem c8_mass_weight_roundtrip (ext : Externals) (d : Dynamics)
    (v : List (List (Fin 3 → ℂ))) (sc : Fin 3 → ℤ) (n : ℤ)
    (res : List (List (Fin 3 → ℂ))) (d2 : Dynamics)
    (hmva : d._velocity_mass_average = none)
    (hv : d._velocity = some v)
    (hsc : d._super_cell_matrix = some sc)
    (hn : d._number_of_atoms = some n)
    (h : d.get_velocity_mass_average ext = some (res, d2))
    (t i : ℕ) (hi : (i : ℤ) < n)
    (hm : 0 < d._structure.masses sc i) :
    (∑ ax : Fin 3, Complex.abs (((res.getD t []).getD i zero3) ax) ^ 2) /
        d._structure.masses sc i =
      ∑ ax : Fin 3, Complex.abs (((v.getD t []).getD i zero3) ax) ^ 2 := by
  simp [Dynamics.get_velocity_mass_average, hmva, Dynamics.velocity, hv,
    Dynamics.get_super_cell_matrix, hsc, Dynamics.get_number_of_atoms, hn,
    Prod.ext_iff] at h
  obtain ⟨hres, -⟩ := h
  subst hres
  rw [massWeight_getD _ _ _ _ _ hi]
  by_cases hif : i < (v.getD t []).length
  · rw [if_pos hif]
    have hsq : ∀ ax : Fin 3,
        Complex.abs (((Real.sqrt (d._structure.masses sc i) : ℝ) : ℂ) *
          (v.getD t []).getD i zero3 ax) ^ 2 =
        d._structure.masses sc i * Complex.abs ((v.getD t []).getD i zero3 ax) ^ 2 := by
      intro ax
      rw [map_mul, Complex.abs_ofReal, abs_of_nonneg (Real.sqrt_nonneg _), mul_pow,
        Real.sq_sqrt hm.le]
    rw [Finset.sum_congr rfl (fun ax _ => hsq ax), ← Finset.mul_sum,
      mul_div_cancel_left₀ _ hm.ne']
  · rw [if_neg hif]
    have hz : (v.getD t []).getD i zero3 = zero3 :=
      List.getD_eq_default _ _ (not_lt.mp hif)
    rw [hz]
    simp [zero3]

/-- A one-axis unit frame entry. -/
def one3 : Fin 3 → ℂ := fun _ => 1

/-- State for the C8 witness: one snapshot of one atom with unit velocity,
cached supercell matrix `(1,1,1)` and cached atom count 1; the structure's
supercell-aware mass is 4 everywhere. -/
def dC8 : Dynamics :=
  ⟨none, none, none, some [[one3]], idCell, structId, none, none, none,
    some (fun _ => 1), some 1, none⟩

/-- Witness for C8 at the concrete one-atom state with mass 4. -/
theorem c8_witness :
    ((0 : ℕ) : ℤ) < 1 ∧ (0 : ℝ) < 4 ∧
    (∑ ax : Fin 3, Complex.abs
        ((((massWeight (fun _ => (4 : ℝ)) 1 [[one3]]).getD 0 []).getD 0 zero3) ax) ^ 2) / 4 =
      ∑ ax : Fin 3, Complex.abs ((([[one3]].getD 0 []).getD 0 zero3) ax) ^ 2 :=
  ⟨by norm_num, by norm_num,
    c8_mass_weight_roundtrip extTriv dC8 [[one3]] (fun _ => 1) 1
      (massWeight (fun _ => (4 : ℝ)) 1 [[one3]])
      { dC8 with _velocity_mass_average := some (massWeight (fun _ => (4 : ℝ)) 1 [[one3]]) }
      rfl rfl rfl rfl rfl 0 0 (by norm_num) (by show (0 : ℝ) < 4; norm_num)⟩

/-! ## C9: supercell vector and atom count -/

lemma npAround_pos (x : ℝ) (hx : 1 / 2 < x) : 0 < npAround x := by
  unfold npAround
  by_cases hf : Int.fract x = 1 / 2
  · rw [if_pos hf]
    have hsub : x - (⌊x⌋ : ℝ) = 1 / 2 := hf
    have h0 : (0 : ℝ) < (⌊x⌋ : ℝ) := by linarith
    have hfl : 0 < ⌊x⌋ := by exact_mod_cast h0
    by_cases he : ⌊x⌋ % 2 = 0
    · rw [if_pos he]; omega
    · rw [if_neg he]; omega
  · rw [if_neg hf, round_eq]
    have h1 : ((1 : ℤ) : ℝ) ≤ x + 1 / 2 := by push_cast; linarith
    have h2 : (1 : ℤ) ≤ ⌊x + 1 / 2⌋ := Int.le_floor.mpr h1
    omega

/-- **C9 (amended).** For cells that pass the tolerance check with empty
caches, `get_super_cell_matrix` returns an integer vector that is positive
whenever every lattice-norm ratio exceeds one half (a ratio at or below one
half rounds to a nonpositive entry yet can still pass the signed-sum check
by cancellation — see the counterexample), and `get_number_of_atoms`
returns exactly the primitive-cell atom count multiplied by the
element-wise product of that vector. -/
theorem c9_super_cell_amended (d : Dynamics) (m : Fin 3 → ℤ) (d1 : Dynamics)
    (hcache : d._super_cell_matrix = none) (hna : d._number_of_atoms = none)
    (hratio : ∀ j, (1 : ℝ) / 2 < superCellRatio d._super_cell d._structure.cell j)
    (h : d.get_super_cell_matrix (1 / 100) = some (m, d1)) :
    (∀ j, 0 < m j) ∧
    d.get_number_of_atoms =
      some ((d._structure.number_of_atoms : ℤ) * (m 0 * m 1 * m 2),
        { d1 with
            _number_of_atoms :=
              some ((d._structure.number_of_atoms : ℤ) * (m 0 * m 1 * m 2)) }) := by
  have hmd : m = superCellRounded d._super_cell d._structure.cell ∧
      d1 = { d with
        _super_cell_matrix := some (superCellRounded d._super_cell d._structure.cell) } := by
    have h2 := h
    simp only [Dynamics.get_super_cell_matrix, hcache] at h2
    by_cases hdev : superCellDeviation d._super_cell d._structure.cell > 1 / 100
    · rw [if_pos hdev] at h2
      exact absurd h2 (by simp)
    · rw [if_neg hdev] at h2
      simp only [Option.some.injEq, Prod.mk.injEq] at h2
      exact ⟨h2.1.symm, h2.2.symm⟩
  obtain ⟨hm1, hm2⟩ := hmd
  subst hm1
  subst hm2
  constructor
  · intro j
    exact npAround_pos _ (hratio j)
  · simp only [Dynamics.get_number_of_atoms, hna, h, Option.map_some']

/-- The simulation cell of the C9 counterexample: diagonal with lattice
parameters `2/5`, `8/5` and `2` against an identity reference cell, so the
norm ratios are `(0.4, 1.6, 2.0)`, rounding to `(0, 2, 2)` with
elementwise errors `-0.4, +0.4, 0` that cancel in the signed sum. -/
def simC9 : Fin 3 → Fin 3 → ℚ := fun i j =>
  if i = j then (if j = 0 then 2 / 5 else if j = 1 then 8 / 5 else 2) else 0

lemma cellParameters_eq (h : Fin 3 → Fin 3 → ℚ) (j : Fin 3) (a : ℚ) (ha : 0 ≤ a)
    (hsum : h 0 j ^ 2 + h 1 j ^ 2 + h 2 j ^ 2 = a ^ 2) :
    cellParameters h j = (a : ℝ) := by
  have hs : ((h 0 j : ℝ)) ^ 2 + ((h 1 j : ℝ)) ^ 2 + ((h 2 j : ℝ)) ^ 2 = (a : ℝ) ^ 2 := by
    exact_mod_cast congrArg (fun q : ℚ => (q : ℝ)) hsum
  rw [cellParameters, hs]
  exact Real.sqrt_sq (by exact_mod_cast ha)

lemma cellParameters_simC9_0 : cellParameters simC9 0 = 2 / 5 := by
  rw [cellParameters_eq simC9 0 (2 / 5) (by norm_num) (by norm_num [simC9, Fin.ext_iff])]
  norm_num

lemma cellParameters_simC9_1 : cellParameters simC9 1 = 8 / 5 := by
  rw [cellParameters_eq simC9 1 (8 / 5) (by norm_num) (by norm_num [simC9, Fin.ext_iff])]
  norm_num

lemma cellParameters_simC9_2 : cellParameters simC9 2 = 2 := by
  rw [cellParameters_eq simC9 2 2 (by norm_num) (by norm_num [simC9, Fin.ext_iff])]
  norm_num

lemma superCellRatio_simC9_0 : superCellRatio simC9 idCell 0 = 2 / 5 := by
  rw [superCellRatio, cellParameters_simC9_0, cellParameters_id]
  norm_num

lemma superCellRatio_simC9_1 : superCellRatio simC9 idCell 1 = 8 / 5 := by
  rw [superCellRatio, cellParameters_simC9_1, cellParameters_id]
  norm_num

lemma superCellRatio_simC9_2 : superCellRatio simC9 idCell 2 = 2 := by
  rw [superCellRatio, cellParameters_simC9_2, cellParameters_id]
  norm_num

lemma npAround_two_fifths : npAround (2 / 5 : ℝ) = 0 := by
  unfold npAround
  rw [if_neg, round_eq]
  · rw [show (2 : ℝ) / 5 + 1 / 2 = 9 / 10 by norm_num]
    rw [Int.floor_eq_iff]
    norm_num
  · rw [Int.fract_eq_self.mpr (by constructor <;> norm_num)]
    norm_num

lemma npAround_eight_fifths : npAround (8 / 5 : ℝ) = 2 := by
  have hfr : Int.fract ((8 : ℝ) / 5) = 3 / 5 := by
    rw [show (8 : ℝ) / 5 = ((1 : ℤ) : ℝ) + 3 / 5 by push_cast; norm_num, Int.fract_int_add,
      Int.fract_eq_self.mpr (by constructor <;> norm_num)]
  unfold npAround
  rw [if_neg (by rw [hfr]; norm_num), round_eq]
  rw [show (8 : ℝ) / 5 + 1 / 2 = 21 / 10 by norm_num]
  rw [Int.floor_eq_iff]
  norm_num

lemma npAround_two : npAround (2 : ℝ) = 2 := by
  have hfr : Int.fract ((2 : ℝ)) = 0 := by
    rw [show (2 : ℝ) = ((2 : ℤ) : ℝ) by norm_num, Int.fract_intCast]
  unfold npAround
  rw [if_neg (by rw [hfr]; norm_num), round_eq]
  rw [show (2 : ℝ) + 1 / 2 = 5 / 2 by norm_num]
  rw [Int.floor_eq_iff]
  norm_num

lemma dev_simC9 : superCellDeviation simC9 idCell = 0 := by
  rw [superCellDeviation]
  have h0 : ((superCellRounded simC9 idCell 0 : ℤ) : ℝ) - superCellRatio simC9 idCell 0 =
      -(2 / 5) := by
    rw [superCellRounded, superCellRatio_simC9_0, npAround_two_fifths]
    norm_num
  have h1 : ((superCellRounded simC9 idCell 1 : ℤ) : ℝ) - superCellRatio simC9 idCell 1 =
      2 / 5 := by
    rw [superCellRounded, superCellRatio_simC9_1, npAround_eight_fifths]
    norm_num
  have h2 : ((superCellRounded simC9 idCell 2 : ℤ) : ℝ) - superCellRatio simC9 idCell 2 = 0 := by
    rw [superCellRounded, superCellRatio_simC9_2, npAround_two]
    norm_num
  rw [Fin.sum_univ_three, h0, h1, h2]
  norm_num

/-- State loading the counterexample simulation cell against the identity
reference, with empty caches. -/
def dC9 : Dynamics :=
  ⟨none, none, none, none, simC9, structId, none, none, none, none, none, none⟩

lemma dC9_scm : dC9.get_super_cell_matrix (1 / 100) =
    some (superCellRounded dC9._super_cell dC9._structure.cell,
      { dC9 with
          _super_cell_matrix :=
            some (superCellRounded dC9._super_cell dC9._structure.cell) }) := by
  refine get_super_cell_matrix_pass dC9 (1 / 100) rfl ?_
  show superCellDeviation simC9 idCell ≤ 1 / 100
  rw [dev_simC9]
  norm_num

/-- **C9 counterexample.** With non-degenerate cells (all six lattice-norm
parameters positive) whose norm ratios are `(0.4, 1.6, 2.0)`, the signed
elementwise rounding errors cancel, the tolerance check passes, and the
returned vector has first entry `0` — not a vector of positive integers. -/
theorem c9_counterexample :
    0 < cellParameters simC9 0 ∧ 0 < cellParameters simC9 1 ∧ 0 < cellParameters simC9 2 ∧
    0 < cellParameters idCell 0 ∧ 0 < cellParameters idCell 1 ∧ 0 < cellParameters idCell 2 ∧
    (dC9.get_super_cell_matrix (1 / 100)).map (fun p => p.1 0) = some 0 := by
  refine ⟨?_, ?_, ?_, ?_, ?_, ?_, ?_⟩
  · rw [cellParameters_simC9_0]; norm_num
  · rw [cellParameters_simC9_1]; norm_num
  · rw [cellParameters_simC9_2]; norm_num
  · rw [cellParameters_id]; norm_num
  · rw [cellParameters_id]; norm_num
  · rw [cellParameters_id]; norm_num
  · rw [dC9_scm]
    simp only [Option.map_some']
    rw [show superCellRounded dC9._super_cell dC9._structure.cell 0 = 0 from by
      rw [superCellRounded]
      show npAround (superCellRatio simC9 idCell 0) = 0
      rw [superCellRatio_simC9_0]
      exact npAround_two_fifths]

/-- Witness for the amended C9 at matching identity cells: all ratios are
1, the returned vector is positive, and the atom count is the primitive
count times the product of the vector. -/
theorem c9_witness :
    (1 : ℝ) / 2 < superCellRatio dSC._super_cell dSC._structure.cell 0 ∧
    0 < superCellRounded dSC._super_cell dSC._structure.cell 0 ∧
    dSC.get_number_of_atoms =
      some ((dSC._structure.number_of_atoms : ℤ) *
          (superCellRounded dSC._super_cell dSC._structure.cell 0 *
            superCellRounded dSC._super_cell dSC._structure.cell 1 *
            superCellRounded dSC._super_cell dSC._structure.cell 2),
        { { dSC with
              _super_cell_matrix :=
                some (superCellRounded dSC._super_cell dSC._structure.cell) } with
            _number_of_atoms :=
              some ((dSC._structure.number_of_atoms : ℤ) *
                (superCellRounded dSC._super_cell dSC._structure.cell 0 *
                  superCellRounded dSC._super_cell dSC._structure.cell 1 *
                  superCellRounded dSC._super_cell dSC._structure.cell 2)) }) := by
  have hratio : ∀ j, (1 : ℝ) / 2 < superCellRatio dSC._super_cell dSC._structure.cell j := by
    intro j
    show (1 : ℝ) / 2 < superCellRatio idCell idCell j
    rw [superCellRatio_id]
    norm_num
  have hdev : superCellDeviation dSC._super_cell dSC._structure.cell ≤ 1 / 100 := by
    show superCellDeviation idCell idCell ≤ 1 / 100
    rw [superCellDeviation_id]
    norm_num
  have h := c9_super_cell_amended dSC (superCellRounded dSC._super_cell dSC._structure.cell) _
    rfl rfl hratio (get_super_cell_matrix_pass dSC (1 / 100) rfl hdev)
  exact ⟨hratio 0, h.1 0, h.2⟩

/-! ## C5: the FFT pipeline -/

lemma map_range_pair (xs ys : List ℝ) (hlen : ys.length = xs.length) :
    (List.range xs.length).map (fun i => (xs.getD i 0, ys.getD i 0)) = xs.zip ys := by
  apply List.ext_get
  · simp [List.length_zip, hlen]
  · intro n h1 h2
    have hn : n < xs.length := by simpa using h1
    have hny : n < ys.length := by rw [hlen]; exact hn
    simp only [List.get_eq_getElem, List.getElem_map, List.getElem_range, List.getElem_zip]
    rw [List.getD_eq_getElem?_getD, List.getElem?_eq_getElem hn,
      List.getD_eq_getElem?_getD, List.getElem?_eq_getElem hny]
    rfl

lemma map_range_getD (xs : List ℝ) :
    (List.range xs.length).map (fun i => xs.getD i 0) = xs := by
  apply List.ext_get
  · simp
  · intro n h1 h2
    have hn : n < xs.length := by simpa using h1
    simp only [List.get_eq_getElem, List.getElem_map, List.getElem_range]
    rw [List.getD_eq_getElem?_getD, List.getElem?_eq_getElem hn]
    rfl

lemma sorted_perm_nodup_fst_eq {β : Type} (l1 : List (ℝ × β)) :
    ∀ l2, l1.Perm l2 →
      l1.Pairwise (fun p q => p.1 ≤ q.1) → l2.Pairwise (fun p q => p.1 ≤ q.1) →
      (l1.map Prod.fst).Nodup → l1 = l2 := by
  induction l1 with
  | nil =>
      intro l2 hp _ _ _
      exact hp.nil_eq
  | cons a t ih =>
      intro l2 hp hs1 hs2 hn
      cases l2 with
      | nil => exact absurd hp.symm.nil_eq (by simp)
      | cons b t2 =>
          have hs1m : List.Sorted (fun x y : ℝ => x ≤ y) ((a :: t).map Prod.fst) :=
            List.Pairwise.map _ (fun p q hpq => hpq) hs1
          have hs2m : List.Sorted (fun x y : ℝ => x ≤ y) ((b :: t2).map Prod.fst) :=
            List.Pairwise.map _ (fun p q hpq => hpq) hs2
          have hfst : (a :: t).map Prod.fst = (b :: t2).map Prod.fst :=
            List.eq_of_perm_of_sorted (hp.map Prod.fst) hs1m hs2m
          have htail : t.map Prod.fst = t2.map Prod.fst := by
            simp only [List.map_cons, List.cons.injEq] at hfst
            exact hfst.2
          have hmem : a ∈ b :: t2 := hp.subset (List.mem_cons_self a t)
          have hba : a = b := by
            rcases List.mem_cons.mp hmem with h | h
            · exact h
            · exfalso
              have h1 : a.1 ∈ t2.map Prod.fst := List.mem_map_of_mem Prod.fst h
              rw [← htail] at h1
              have h2 : a.1 ∉ t.map Prod.fst := by
                simp only [List.map_cons, List.nodup_cons] at hn
                exact hn.1
              exact h2 h1
          subst hba
          have hpt : t.Perm t2 := hp.cons_inv
          rw [ih t2 hpt (List.Pairwise.of_cons hs1) (List.Pairwise.of_cons hs2)
            (by simp only [List.map_cons, List.nodup_cons] at hn; exact hn.2)]

lemma npFFTfreq_length (L : ℕ) (d : ℝ) : (npFFTfreq L d).length = L := by
  simp [npFFTfreq]

lemma npFFTfreq_nodup (L : ℕ) (d : ℝ) (hd : 0 < d) : (npFFTfreq L d).Nodup := by
  rcases Nat.eq_zero_or_pos L with hL | hL
  · subst hL
    simp [npFFTfreq]
  · rw [npFFTfreq]
    refine List.Nodup.map_on ?_ (List.nodup_range L)
    intro x hx y hy hxy
    have hx2 : x < L := List.mem_range.mp hx
    have hy2 : y < L := List.mem_range.mp hy
    have hLd : ((L : ℝ)) * d ≠ 0 :=
      ne_of_gt (mul_pos (by exact_mod_cast hL) hd)
    have h2 : (if x < (L + 1) / 2 then (x : ℝ) else (x : ℝ) - L) =
        (if y < (L + 1) / 2 then (y : ℝ) else (y : ℝ) - L) := by
      have := congrArg (fun z => z * ((L : ℝ) * d)) hxy
      simpa [div_mul_cancel₀ _ hLd] using this
    by_cases hxh : x < (L + 1) / 2 <;> by_cases hyh : y < (L + 1) / 2
    · rw [if_pos hxh, if_pos hyh] at h2
      exact_mod_cast h2
    · rw [if_pos hxh, if_neg hyh] at h2
      exfalso
      have hy3 : ((y : ℝ)) < L := by exact_mod_cast hy2
      have hx3 : (0 : ℝ) ≤ (x : ℝ) := by positivity
      linarith
    · rw [if_neg hxh, if_pos hyh] at h2
      exfalso
      have hx3 : ((x : ℝ)) < L := by exact_mod_cast hx2
      have hy3 : (0 : ℝ) ≤ (y : ℝ) := by positivity
      linarith
    · rw [if_neg hxh, if_neg hyh] at h2
      have : (x : ℝ) = (y : ℝ) := by linarith
      exact_mod_cast this

lemma gather_eq_sortPairs (xs ys : List ℝ) (hlen : ys.length = xs.length) (hnd : xs.Nodup) :
    ((npArgsort xs).map (fun i => xs.getD i 0)).zip ((npArgsort xs).map (fun i => ys.getD i 0)) =
      sortedFreqSpectrum xs ys := by
  rw [List.zip_map']
  have htrans : ∀ a b c : ℕ, (decide (xs.getD a 0 ≤ xs.getD b 0)) = true →
      (decide (xs.getD b 0 ≤ xs.getD c 0)) = true →
      (decide (xs.getD a 0 ≤ xs.getD c 0)) = true := by
    intro a b c hab hbc
    simp only [decide_eq_true_eq] at hab hbc ⊢
    exact le_trans hab hbc
  have htotal : ∀ a b : ℕ, ((decide (xs.getD a 0 ≤ xs.getD b 0)) ||
      (decide (xs.getD b 0 ≤ xs.getD a 0))) = true := by
    intro a b
    simp only [Bool.or_eq_true, decide_eq_true_eq]
    exact le_total _ _
  have htransP : ∀ a b c : ℝ × ℝ, (decide (a.1 ≤ b.1)) = true → (decide (b.1 ≤ c.1)) = true →
      (decide (a.1 ≤ c.1)) = true := by
    intro a b c hab hbc
    simp only [decide_eq_true_eq] at hab hbc ⊢
    exact le_trans hab hbc
  have htotalP : ∀ a b : ℝ × ℝ, ((decide (a.1 ≤ b.1)) || (decide (b.1 ≤ a.1))) = true := by
    intro a b
    simp only [Bool.or_eq_true, decide_eq_true_eq]
    exact le_total _ _
  apply sorted_perm_nodup_fst_eq
  · -- both sides are permutations of the zip
    refine (((List.mergeSort_perm (List.range xs.length) _).map _).trans ?_).trans
      (List.mergeSort_perm (xs.zip ys) _).symm
    rw [map_range_pair xs ys hlen]
  · -- the gathered list is sorted by first component
    refine List.Pairwise.map _ ?_ (List.sorted_mergeSort htrans htotal (List.range xs.length))
    intro a b hab
    simpa using hab
  · -- the sorted pair list is sorted by first component
    exact (List.sorted_mergeSort htransP htotalP (xs.zip ys)).imp (fun h => by simpa using h)
  · -- the gathered keys have no duplicates
    have hperm : (((npArgsort xs).map (fun i => (xs.getD i 0, ys.getD i 0))).map Prod.fst).Perm
        xs := by
      have h1 : ((npArgsort xs).map (fun i => (xs.getD i 0, ys.getD i 0))).map Prod.fst =
          (npArgsort xs).map (fun i => xs.getD i 0) := by
        rw [List.map_map]
        rfl
      rw [h1]
      refine ((List.mergeSort_perm (List.range xs.length) _).map _).trans ?_
      rw [map_range_getD xs]
    exact hperm.symm.nodup hnd

/-- **C5.** `fft_power` is exactly the spec's composition: same-length
centered autocorrelation of the series divided by its length, right zero
padding, DFT magnitude scaled by `time_step/2`, the DFT frequency axis of
the padded length and sampling interval sorted into ascending order, and
linear interpolation of the magnitude spectrum onto the supplied grid.
The positive time step makes the frequency axis duplicate-free, so the
source's argsort-and-gather equals the sorted pairing of axis and
spectrum. -/
theorem c5_fft_power_pipeline (frequency_range : List ℝ) (data : List ℝ) (time_step : ℝ)
    (zero_padding : ℕ) (hts : 0 < time_step) :
    fft_power frequency_range data time_step zero_padding =
      fftPipelineSpec frequency_range data time_step zero_padding := by
  unfold fft_power fftPipelineSpec npInterp
  dsimp only
  have hg := gather_eq_sortPairs
    (npFFTfreq (autocorrelation data ++ List.replicate zero_padding 0).length time_step)
    ((npFFT (autocorrelation data ++ List.replicate zero_padding 0)).map
      (fun z => Complex.abs z * time_step / 2))
    (by simp only [List.length_map, npFFT, List.length_range, npFFTfreq_length])
    (npFFTfreq_nodup _ _ hts)
  rw [hg]

/-- Witness for C5 at a concrete one-sample series with unit time step. -/
theorem c5_witness :
    (0 : ℝ) < 1 ∧ fft_power [0] [0] 1 0 = fftPipelineSpec [0] [0] 1 0 :=
  ⟨by norm_num, c5_fft_power_pipeline [0] [0] 1 0 (by norm_num)⟩

end DynaPhoPy
